import Mathlib

/-!
Verification of the energy-level-diagram layout engine
(`energy_level_diagram/diagram.py`).

The embedding models the data classes `Level`, `Column`, `Diagram` and the
layout methods `add_column`, `connect`, `add_vertical_arrow`,
`add_vertical_broken_arrow`, `add_transition`, `add_spontaneous_emission`,
`_compute_column_positions`, `_regulate_levels`, and the geometric part of
`plot`.  Real numbers are modelled as rationals (the Python code performs
only field operations and comparisons on floats).  Levels are referenced by
identity in the Python code (objects used as dict keys); the embedding gives
every `Level` a numeric identity field `id` and keys the coordinate map by
it.  The back-reference `Level.column` is write-only in the source (the
layout never reads it) and is omitted.  Drawing calls into matplotlib are
modelled as a list of renderer-agnostic instructions.
-/

namespace EnergyLevelDiagram

/-- A single energy level (`Level` dataclass): an energy, an optional label,
and an identity used wherever the Python code compares levels by object
identity. -/
structure Level where
  id : Nat
  energy : ℚ
  label : Option String
deriving DecidableEq, Repr

/-- A vertical column of levels (`Column` dataclass): ordered levels, a
width (Python default 0.5), a separation to the next column (default 1.0)
and an optional label. -/
structure Column where
  levels : List Level
  width : ℚ
  separation : ℚ
  label : Option String
deriving DecidableEq, Repr

instance : Inhabited Column := ⟨⟨[], 1/2, 1, none⟩⟩

/-- The `Diagram` dataclass: ordered columns, the `auto_regulation` flag
(default true), an optional label, and the five annotation lists
(`_connections`, `_arrows`, `_broken_arrows`, `_transitions`,
`_emissions`), each a list of tuples exactly as stored by the Python
registration methods. -/
structure Diagram where
  columns : List Column
  auto_regulation : Bool
  label : Option String
  connections : List (Level × Level)
  arrows : List (Level × Level × ℚ × Option String × String)
  brokenArrows : List (Level × Level × ℚ × Option String × ℚ × String)
  transitions : List (Level × Level × ℚ × Option String × String)
  emissions : List (Level × Level × ℚ × Option String × String)
deriving DecidableEq, Repr

/-- A fresh diagram, as produced by `Diagram()` with all defaults. -/
def emptyDiagram : Diagram := ⟨[], true, none, [], [], [], [], []⟩

/-- Python's `x or d` for an optional float argument: `None` and `0.0` are
falsy, so both select the default `d`; any nonzero value is kept.  This is
the defaulting expression `width or 0.5` / `separation or 1.0` in
`Diagram.add_column`. -/
def pyFloatOr (v : Option ℚ) (d : ℚ) : ℚ :=
  match v with
  | none => d
  | some x => if x = 0 then d else x

/-- Python's truthiness test `if label:` on an optional string: `None` and
the empty string are falsy. -/
def strTruthy (o : Option String) : Bool :=
  match o with
  | none => false
  | some s => !(s == "")

/-- Helper for `add_column`: the loop `for energy in levels:
column.add_level(energy)`, allocating consecutive fresh identities for the
created levels. -/
def addLevels (c : Column) (fresh : Nat) : List ℚ → Column
  | [] => c
  | e :: es => addLevels { c with levels := c.levels ++ [⟨fresh, e, none⟩] } (fresh + 1) es

/-- `Diagram.add_column(levels, width=, separation=, label=)`: builds
`Column(width=width or 0.5, separation=separation or 1.0, label=label)`,
adds the initial levels when given, appends the column to the diagram and
returns it.  `fresh` is the first unused identity for the created levels
(standing in for Python object identity). -/
def addColumn (d : Diagram) (levels : Option (List ℚ)) (width : Option ℚ)
    (separation : Option ℚ) (label : Option String) (fresh : Nat) :
    Diagram × Column :=
  let col0 : Column := ⟨[], pyFloatOr width (1/2), pyFloatOr separation 1, label⟩
  let col : Column :=
    match levels with
    | none => col0
    | some es => addLevels col0 fresh es
  ({ d with columns := d.columns ++ [col] }, col)

/-- `Diagram.connect(level_a, level_b)`: append one pair to `_connections`. -/
def connect (d : Diagram) (a b : Level) : Diagram :=
  { d with connections := d.connections ++ [(a, b)] }

/-- `Diagram.add_vertical_arrow` (defaults `label=None`, `color="black"`):
append one tuple to `_arrows`. -/
def addVerticalArrow (d : Diagram) (a b : Level) (x : ℚ) (label : Option String)
    (color : String) : Diagram :=
  { d with arrows := d.arrows ++ [(a, b, x, label, color)] }

/-- `Diagram.add_vertical_broken_arrow` (defaults `label=None`,
`break_position=0.5`, `color="black"`): append one tuple to
`_broken_arrows`. -/
def addVerticalBrokenArrow (d : Diagram) (a b : Level) (x : ℚ)
    (label : Option String) (breakPosition : ℚ) (color : String) : Diagram :=
  { d with brokenArrows := d.brokenArrows ++ [(a, b, x, label, breakPosition, color)] }

/-- `Diagram.add_transition` (defaults `label=None`, `color="blue"`):
append one tuple to `_transitions`. -/
def addTransition (d : Diagram) (a b : Level) (x : ℚ) (label : Option String)
    (color : String) : Diagram :=
  { d with transitions := d.transitions ++ [(a, b, x, label, color)] }

/-- `Diagram.add_spontaneous_emission` (defaults `label=None`,
`color="red"`): append one tuple to `_emissions`. -/
def addSpontaneousEmission (d : Diagram) (a b : Level) (x : ℚ)
    (label : Option String) (color : String) : Diagram :=
  { d with emissions := d.emissions ++ [(a, b, x, label, color)] }

/-- The accumulation loop of `Diagram._compute_column_positions`:
`positions.append(current_pos); current_pos += col.width;
current_pos += col.separation` over the column list. -/
def columnPositionsLoop (positions : List ℚ) (currentPos : ℚ) :
    List Column → List ℚ
  | [] => positions
  | col :: rest =>
      columnPositionsLoop (positions ++ [currentPos])
        (currentPos + col.width + col.separation) rest

/-- `Diagram._compute_column_positions`, modelled with its state threaded
explicitly: the method reads `self.columns`, mutates only its locals
`positions` and `current_pos`, and returns the position list; the second
component is the diagram after the call (unchanged, since the body never
assigns to `self`). -/
def computeColumnPositionsS (d : Diagram) : List ℚ × Diagram :=
  (columnPositionsLoop [] 0 d.columns, d)

/-- The value returned by `Diagram._compute_column_positions`. -/
def computeColumnPositions (d : Diagram) : List ℚ :=
  (computeColumnPositionsS d).1

/-- Python's `min` over a list, seeded from the first element (defined as 0
on the empty list, which `_regulate_levels` never reaches thanks to its
empty-list guard). -/
def minE : List ℚ → ℚ
  | [] => 0
  | x :: xs => xs.foldl min x

/-- Python's `max` over a list, seeded from the first element. -/
def maxE : List ℚ → ℚ
  | [] => 0
  | x :: xs => xs.foldl max x

/-- `Diagram._regulate_levels(energies)`: empty in, empty out; identity when
`auto_regulation` is off; otherwise normalise by
`span = max_level - min_level or 1.0` (Python `or`: a zero span is replaced
by 1.0) and map each energy `e` to `(e - min_level) / span`. -/
def regulateLevels (d : Diagram) (energies : List ℚ) : List ℚ :=
  if energies = [] then []
  else if d.auto_regulation = false then energies
  else
    let minLevel := minE energies
    let maxLevel := maxE energies
    let span := if maxLevel - minLevel = 0 then 1 else maxLevel - minLevel
    energies.map fun e => (e - minLevel) / span

/-- The value stored for a level in `plot`'s `level_coords` dictionary:
`(x, x + col.width, y)` — left edge, right edge, regulated height. -/
structure Coord where
  x0 : ℚ
  x1 : ℚ
  y : ℚ
deriving DecidableEq, Repr

/-- Lookup in a Python dict represented as its insertion sequence: the
latest insertion for a key wins, so the tail is consulted first. -/
def dictFind (m : List (Nat × Coord)) (k : Nat) : Option Coord :=
  match m with
  | [] => none
  | (k0, v) :: rest =>
      match dictFind rest k with
      | some v1 => some v1
      | none => if k0 = k then some v else none

/-- The `level_coords` dictionary built by `plot`: for each column `col`
paired with its x position, and each level `lvl` paired with its regulated
height `y`, the entry `level_coords[lvl] = (x, x + col.width, y)`. -/
def levelCoords (d : Diagram) : List (Nat × Coord) :=
  (d.columns.zip (computeColumnPositions d)).flatMap fun p =>
    (p.1.levels.zip (regulateLevels d (p.1.levels.map Level.energy))).map fun q =>
      (q.1.id, ⟨p.2, p.2 + p.1.width, q.2⟩)

/-- One renderer-agnostic drawing instruction emitted by `plot`:
`hline` is `ax.hlines`, `text` is `ax.text`, `connSeg` is the dashed gray
`ax.plot` segment of a connection, `arrow` is an `ax.annotate` arrow with
its style string, color and dashed flag, and `gapGlyph` is the white
erasure segment of a broken arrow (drawn from `yLo` to `yHi` at `x`). -/
inductive Instr where
  | hline (y x0 x1 : ℚ)
  | text (x y : ℚ) (s : String)
  | connSeg (x0 x1 y0 y1 : ℚ)
  | arrow (x y0 y1 : ℚ) (style : String) (color : String) (dashed : Bool)
  | gapGlyph (x yLo yHi : ℚ)
deriving DecidableEq, Repr

/-- The connection loop body of `plot`: draw the dashed gray segment from
the right edge of the first level to the left edge of the second, provided
both levels are in `level_coords`; otherwise draw nothing. -/
def resolveConnection (m : List (Nat × Coord)) (c : Level × Level) : List Instr :=
  match dictFind m c.1.id, dictFind m c.2.id with
  | some l, some r => [Instr.connSeg l.x1 r.x0 l.y r.y]
  | _, _ => []

/-- The vertical-arrow loop body of `plot`: a double-headed arrow at `x`
from the first level's height to the second's, plus a label text at the
midpoint offset 0.05 to the right when the label is truthy; nothing when
either level is missing from `level_coords`. -/
def resolveArrow (m : List (Nat × Coord))
    (a : Level × Level × ℚ × Option String × String) : List Instr :=
  match dictFind m a.1.id, dictFind m a.2.1.id with
  | some s, some e =>
      [Instr.arrow a.2.2.1 s.y e.y "<->" a.2.2.2.2 false] ++
      (if strTruthy a.2.2.2.1 then
        [Instr.text (a.2.2.1 + 1/20) ((s.y + e.y) / 2) (a.2.2.2.1.getD "")]
      else [])
  | _, _ => []

/-- The broken-arrow loop body of `plot`: the double-headed arrow, then
`break_y = y0 + (y1 - y0) * break_pos`, a white gap segment from
`break_y - gap` to `break_y + gap` with `gap = (y1 - y0) * 0.05`, the
tilde break marker text at `(x + 0.02, break_y)`, and the optional label;
nothing when either level is missing from `level_coords`. -/
def resolveBrokenArrow (m : List (Nat × Coord))
    (a : Level × Level × ℚ × Option String × ℚ × String) : List Instr :=
  match dictFind m a.1.id, dictFind m a.2.1.id with
  | some s, some e =>
      let x := a.2.2.1
      let breakY := s.y + (e.y - s.y) * a.2.2.2.2.1
      let gap := (e.y - s.y) * (1/20)
      [Instr.arrow x s.y e.y "<->" a.2.2.2.2.2 false,
       Instr.gapGlyph x (breakY - gap) (breakY + gap),
       Instr.text (x + 1/50) breakY "~~"] ++
      (if strTruthy a.2.2.2.1 then
        [Instr.text (x + 1/20) ((s.y + e.y) / 2) (a.2.2.2.1.getD "")]
      else [])
  | _, _ => []

/-- The transition loop body of `plot`: a single-headed arrow (style
`-|>`) at `x` from the first level's height to the second's, plus the
optional midpoint label; nothing when either level is missing. -/
def resolveTransition (m : List (Nat × Coord))
    (a : Level × Level × ℚ × Option String × String) : List Instr :=
  match dictFind m a.1.id, dictFind m a.2.1.id with
  | some s, some e =>
      [Instr.arrow a.2.2.1 s.y e.y "-|>" a.2.2.2.2 false] ++
      (if strTruthy a.2.2.2.1 then
        [Instr.text (a.2.2.1 + 1/20) ((s.y + e.y) / 2) (a.2.2.2.1.getD "")]
      else [])
  | _, _ => []

/-- The emission loop body of `plot`: a single-headed dashed arrow (style
`->`) at `x`, plus the optional midpoint label; nothing when either level
is missing. -/
def resolveEmission (m : List (Nat × Coord))
    (a : Level × Level × ℚ × Option String × String) : List Instr :=
  match dictFind m a.1.id, dictFind m a.2.1.id with
  | some s, some e =>
      [Instr.arrow a.2.2.1 s.y e.y "->" a.2.2.2.2 true] ++
      (if strTruthy a.2.2.2.1 then
        [Instr.text (a.2.2.1 + 1/20) ((s.y + e.y) / 2) (a.2.2.2.1.getD "")]
      else [])
  | _, _ => []

/-- The default auto-connect block at the end of `plot`'s drawing phase:
executed only when `connect and len(self.columns) > 1 and not
self._connections`; it iterates `idx` over `range(1, len(columns))` and
draws a dashed gray segment for every pair of one level of column
`idx - 1` and one level of column `idx` present in `level_coords`. -/
def defaultConnections (d : Diagram) (connect : Bool)
    (m : List (Nat × Coord)) : List Instr :=
  if connect ∧ 1 < d.columns.length ∧ d.connections = [] then
    (List.range' 1 (d.columns.length - 1)).flatMap fun idx =>
      (d.columns[idx - 1]!).levels.flatMap fun l =>
        (d.columns[idx]!).levels.flatMap fun r =>
          match dictFind m l.id, dictFind m r.id with
          | some cl, some cr => [Instr.connSeg cl.x1 cr.x0 cl.y cr.y]
          | _, _ => []
  else []

/-- The per-level drawing of `plot`'s first loop: the horizontal level bar,
plus the level label text at `(x, y + 0.02)` when `show_level_name` is set
and the label is truthy. -/
def levelInstrs (d : Diagram) (showLevelName : Bool) : List Instr :=
  (d.columns.zip (computeColumnPositions d)).flatMap fun p =>
    (p.1.levels.zip (regulateLevels d (p.1.levels.map Level.energy))).flatMap fun q =>
      [Instr.hline q.2 p.2 (p.2 + p.1.width)] ++
      (if showLevelName ∧ strTruthy q.1.label then
        [Instr.text p.2 (q.2 + 1/50) (q.1.label.getD "")]
      else [])

/-- The smallest regulated height over the whole diagram (`min_level_y` in
`plot`, seeded with `float("inf")`): `none` models the seed surviving a
diagram with no levels. -/
def minLevelY (d : Diagram) : Option ℚ :=
  (d.columns.flatMap fun col =>
    regulateLevels d (col.levels.map Level.energy)).min?

/-- The column-label loop of `plot`: when `show_column_name` is set and the
column's label is truthy, a centered text at
`(x + width / 2, min_level_y - column_label_gap)`.  When the diagram has no
levels at all Python would place these labels at minus infinity; the
embedding emits no finite instruction in that case. -/
def columnLabelInstrs (d : Diagram) (showColumnName : Bool)
    (columnLabelGap : ℚ) : List Instr :=
  match minLevelY d with
  | none => []
  | some lo =>
      (d.columns.zip (computeColumnPositions d)).flatMap fun p =>
        if showColumnName ∧ strTruthy p.1.label then
          [Instr.text (p.2 + p.1.width / 2) (lo - columnLabelGap) (p.1.label.getD "")]
        else []

/-- The geometric output of `Diagram.plot`: all drawing instructions in the
order the Python method issues them — level bars and labels, column
labels, explicit connections, vertical arrows, broken arrows, transitions,
emissions, and the default auto-connect segments.  Axis/padding
configuration and the final display call are renderer state changes, not
drawn geometry, and are outside this model. -/
def plotInstructions (d : Diagram) (connect : Bool)
    (showLevelName showColumnName : Bool) (columnLabelGap : ℚ) : List Instr :=
  let m := levelCoords d
  levelInstrs d showLevelName ++
  columnLabelInstrs d showColumnName columnLabelGap ++
  d.connections.flatMap (resolveConnection m) ++
  d.arrows.flatMap (resolveArrow m) ++
  d.brokenArrows.flatMap (resolveBrokenArrow m) ++
  d.transitions.flatMap (resolveTransition m) ++
  d.emissions.flatMap (resolveEmission m) ++
  defaultConnections d connect m

theorem foldl_min_le_init (l : List ℚ) (a : ℚ) : l.foldl min a ≤ a := by
  induction l generalizing a with
  | nil => simp
  | cons x xs ih => exact le_trans (ih (min a x)) (min_le_left a x)

theorem foldl_min_le_of_mem {l : List ℚ} {e : ℚ} (h : e ∈ l) (a : ℚ) :
    l.foldl min a ≤ e := by
  induction l generalizing a with
  | nil => cases h
  | cons x xs ih =>
      rcases List.mem_cons.mp h with rfl | hx
      · exact le_trans (foldl_min_le_init xs (min a e)) (min_le_right a e)
      · exact ih hx (min a x)

theorem foldl_min_mem (l : List ℚ) (a : ℚ) :
    l.foldl min a = a ∨ l.foldl min a ∈ l := by
  induction l generalizing a with
  | nil => exact Or.inl rfl
  | cons x xs ih =>
      rcases ih (min a x) with h | h
      · rcases min_choice a x with hm | hm
        · exact Or.inl (by rw [List.foldl_cons, h, hm])
        · exact Or.inr (by rw [List.foldl_cons, h, hm]; exact List.mem_cons_self x xs)
      · exact Or.inr (List.mem_cons_of_mem x h)

theorem foldl_max_init_le (l : List ℚ) (a : ℚ) : a ≤ l.foldl max a := by
  induction l generalizing a with
  | nil => simp
  | cons x xs ih => exact le_trans (le_max_left a x) (ih (max a x))

theorem foldl_max_mem_le {l : List ℚ} {e : ℚ} (h : e ∈ l) (a : ℚ) :
    e ≤ l.foldl max a := by
  induction l generalizing a with
  | nil => cases h
  | cons x xs ih =>
      rcases List.mem_cons.mp h with rfl | hx
      · exact le_trans (le_max_right a e) (foldl_max_init_le xs (max a e))
      · exact ih hx (max a x)

theorem foldl_max_mem (l : List ℚ) (a : ℚ) :
    l.foldl max a = a ∨ l.foldl max a ∈ l := by
  induction l generalizing a with
  | nil => exact Or.inl rfl
  | cons x xs ih =>
      rcases ih (max a x) with h | h
      · rcases max_choice a x with hm | hm
        · exact Or.inl (by rw [List.foldl_cons, h, hm])
        · exact Or.inr (by rw [List.foldl_cons, h, hm]; exact List.mem_cons_self x xs)
      · exact Or.inr (List.mem_cons_of_mem x h)

theorem minE_mem {l : List ℚ} (h : l ≠ []) : minE l ∈ l := by
  match l with
  | x :: xs =>
      rcases foldl_min_mem xs x with h0 | h0
      · rw [minE, h0]; exact List.mem_cons_self x xs
      · exact List.mem_cons_of_mem x (by rw [minE]; exact h0)

theorem minE_le {l : List ℚ} {e : ℚ} (h : e ∈ l) : minE l ≤ e := by
  match l with
  | x :: xs =>
      rcases List.mem_cons.mp h with rfl | hx
      · exact foldl_min_le_init xs e
      · exact foldl_min_le_of_mem hx x

theorem maxE_mem {l : List ℚ} (h : l ≠ []) : maxE l ∈ l := by
  match l with
  | x :: xs =>
      rcases foldl_max_mem xs x with h0 | h0
      · rw [maxE, h0]; exact List.mem_cons_self x xs
      · exact List.mem_cons_of_mem x (by rw [maxE]; exact h0)

theorem le_maxE {l : List ℚ} {e : ℚ} (h : e ∈ l) : e ≤ maxE l := by
  match l with
  | x :: xs =>
      rcases List.mem_cons.mp h with rfl | hx
      · exact foldl_max_init_le xs e
      · exact foldl_max_mem_le hx x

theorem minE_unique {l : List ℚ} {a : ℚ} (h : l ≠ []) (ha : a ∈ l)
    (hle : ∀ e ∈ l, a ≤ e) : minE l = a :=
  le_antisymm (minE_le ha) (hle _ (minE_mem h))

theorem maxE_unique {l : List ℚ} {a : ℚ} (h : l ≠ []) (ha : a ∈ l)
    (hle : ∀ e ∈ l, e ≤ a) : maxE l = a :=
  le_antisymm (hle _ (maxE_mem h)) (le_maxE ha)

theorem minE_le_maxE {l : List ℚ} (h : l ≠ []) : minE l ≤ maxE l :=
  le_trans (minE_le (maxE_mem h)) (le_refl _)

theorem minE_map {l : List ℚ} (h : l ≠ []) (f : ℚ → ℚ)
    (mono : ∀ x y, x ≤ y → f x ≤ f y) : minE (l.map f) = f (minE l) := by
  refine minE_unique (by simpa using h) (List.mem_map_of_mem f (minE_mem h)) ?_
  intro e he
  rcases List.mem_map.mp he with ⟨x, hx, rfl⟩
  exact mono _ _ (minE_le hx)

theorem maxE_map {l : List ℚ} (h : l ≠ []) (f : ℚ → ℚ)
    (mono : ∀ x y, x ≤ y → f x ≤ f y) : maxE (l.map f) = f (maxE l) := by
  refine maxE_unique (by simpa using h) (List.mem_map_of_mem f (maxE_mem h)) ?_
  intro e he
  rcases List.mem_map.mp he with ⟨x, hx, rfl⟩
  exact mono _ _ (le_maxE hx)

theorem allEq_iff_minE_eq_maxE {l : List ℚ} (h : l ≠ []) :
    (∀ a ∈ l, ∀ b ∈ l, a = b) ↔ minE l = maxE l := by
  constructor
  · intro hall
    exact hall _ (minE_mem h) _ (maxE_mem h)
  · intro heq a ha b hb
    have h1 : a ≤ maxE l := le_maxE ha
    have h2 : minE l ≤ a := minE_le ha
    have h3 : b ≤ maxE l := le_maxE hb
    have h4 : minE l ≤ b := minE_le hb
    have ha' : a = minE l := le_antisymm (heq ▸ h1) h2
    have hb' : b = minE l := le_antisymm (heq ▸ h3) h4
    rw [ha', hb']

/-- C1: with `auto_regulation = True` the regulator maps the empty list to
the empty list, and maps a non-empty list `es` elementwise to
`(e - min) / span` with `span = max - min`, replaced by 1 when
`max = min`; consequently when not all inputs are equal the output has
minimum 0 and maximum 1, and when all inputs are equal every output entry
is 0. -/
theorem C1_regulate_auto_unit_interval (d : Diagram) (es : List ℚ)
    (hauto : d.auto_regulation = true) :
    regulateLevels d [] = [] ∧
    (es ≠ [] →
      regulateLevels d es =
        es.map (fun e => (e - minE es) /
          (if maxE es = minE es then 1 else maxE es - minE es)) ∧
      (¬ (∀ a ∈ es, ∀ b ∈ es, a = b) →
        minE (regulateLevels d es) = 0 ∧ maxE (regulateLevels d es) = 1) ∧
      ((∀ a ∈ es, ∀ b ∈ es, a = b) → ∀ y ∈ regulateLevels d es, y = 0)) := by
  refine ⟨by simp [regulateLevels], ?_⟩
  intro hne
  have hunfold : regulateLevels d es =
      es.map (fun e => (e - minE es) /
        (if maxE es = minE es then 1 else maxE es - minE es)) := by
    simp [regulateLevels, hne, hauto, sub_eq_zero]
  refine ⟨hunfold, ?_, ?_⟩
  · intro hneq
    have hmm : minE es ≠ maxE es := fun h =>
      hneq ((allEq_iff_minE_eq_maxE hne).mpr h)
    have hlt : 0 < maxE es - minE es :=
      sub_pos.mpr (lt_of_le_of_ne (minE_le_maxE hne) hmm)
    have hspan : (if maxE es = minE es then (1 : ℚ) else maxE es - minE es) =
        maxE es - minE es := if_neg (fun h => hmm h.symm)
    rw [hunfold, hspan]
    have mono : ∀ x y : ℚ, x ≤ y →
        (x - minE es) / (maxE es - minE es) ≤ (y - minE es) / (maxE es - minE es) :=
      fun x y hxy => (div_le_div_iff_of_pos_right hlt).mpr (sub_le_sub_right hxy _)
    constructor
    · rw [minE_map hne _ mono, sub_self, zero_div]
    · rw [maxE_map hne _ mono]
      exact div_self (ne_of_gt hlt)
  · intro hall y hy
    rw [hunfold] at hy
    rcases List.mem_map.mp hy with ⟨x, hx, rfl⟩
    rw [hall _ hx _ (minE_mem hne), sub_self, zero_div]

/-- Witness for C1 at the concrete input `[0, 1, 2]` of a fresh diagram:
the regulated output is `[0, 1/2, 1]`, with minimum 0 and maximum 1. -/
theorem C1_regulate_auto_unit_interval_witness :
    regulateLevels emptyDiagram [0, 1, 2] = [0, 1/2, 1] ∧
    minE (regulateLevels emptyDiagram [0, 1, 2]) = 0 ∧
    maxE (regulateLevels emptyDiagram [0, 1, 2]) = 1 := by
  have h := (C1_regulate_auto_unit_interval emptyDiagram [0, 1, 2] rfl).2
    (by decide)
  have hne : ¬ (∀ a ∈ ([0, 1, 2] : List ℚ), ∀ b ∈ ([0, 1, 2] : List ℚ), a = b) := by
    intro hall
    exact absurd (hall 0 (by simp) 1 (by simp)) (by norm_num)
  refine ⟨?_, h.2.1 hne⟩
  rw [h.1]
  norm_num [minE, maxE]

/-- C7: with `auto_regulation = False` the regulator is the identity on
energy lists. -/
theorem C7_regulate_identity (d : Diagram) (es : List ℚ)
    (h : d.auto_regulation = false) : regulateLevels d es = es := by
  by_cases he : es = []
  · subst he; simp [regulateLevels]
  · simp [regulateLevels, he, h]

/-- Witness for C7 at the concrete input `[0, 1, 2]` of a diagram with
auto-regulation off. -/
theorem C7_regulate_identity_witness :
    regulateLevels { emptyDiagram with auto_regulation := false } [0, 1, 2] =
      [0, 1, 2] :=
  C7_regulate_identity { emptyDiagram with auto_regulation := false } [0, 1, 2] rfl

theorem columnPositionsLoop_append (acc : List ℚ) (cur : ℚ) (cols : List Column) :
    columnPositionsLoop acc cur cols = acc ++ columnPositionsLoop [] cur cols := by
  induction cols generalizing acc cur with
  | nil => simp [columnPositionsLoop]
  | cons c cs ih =>
      rw [columnPositionsLoop, columnPositionsLoop, ih (acc ++ [cur]),
        ih ([] ++ [cur])]
      simp

theorem columnPositionsLoop_cons (start : ℚ) (c : Column) (cs : List Column) :
    columnPositionsLoop [] start (c :: cs) =
      start :: columnPositionsLoop [] (start + c.width + c.separation) cs := by
  rw [columnPositionsLoop, columnPositionsLoop_append]
  simp

theorem columnPositionsLoop_length (start : ℚ) (cols : List Column) :
    (columnPositionsLoop [] start cols).length = cols.length := by
  induction cols generalizing start with
  | nil => rfl
  | cons c cs ih => rw [columnPositionsLoop_cons]; simp [ih]

theorem columnPositionsLoop_getElem (cols : List Column) (start : ℚ) (i : ℕ)
    (hi : i < cols.length) :
    (columnPositionsLoop [] start cols)[i]? =
      some (start + ((cols.take i).map (fun c => c.width + c.separation)).sum) := by
  induction cols generalizing start i with
  | nil => exact absurd hi (by simp)
  | cons c cs ih =>
      rw [columnPositionsLoop_cons]
      cases i with
      | zero => simp
      | succ n =>
          simp only [List.getElem?_cons_succ]
          rw [ih (start + c.width + c.separation) n (by simpa using hi)]
          simp only [List.take_succ_cons, List.map_cons, List.sum_cons]
          congr 1
          ring

/-- C9: calling `_compute_column_positions` twice without modifying the
diagram in between yields identical results — the method leaves the
diagram unchanged (its body assigns only to locals), so the second call
runs on the same state and returns the same position list. -/
theorem C9_column_positions_idempotent (d : Diagram) :
    (computeColumnPositionsS d).2 = d ∧
    computeColumnPositionsS ((computeColumnPositionsS d).2) =
      computeColumnPositionsS d :=
  ⟨rfl, rfl⟩

/-- C2: the position resolver returns one x-coordinate per column; column
`i`'s left edge is the sum of `width + separation` over the columns before
it (sequential accumulation from cursor 0), and when all columns share
width `w` and separation `s` this equals `i * (w + s)`. -/
theorem C2_column_positions_accumulate (d : Diagram) (w s : ℚ) (i : ℕ)
    (hi : i < d.columns.length) :
    (computeColumnPositions d).length = d.columns.length ∧
    (computeColumnPositions d)[i]? =
      some (((d.columns.take i).map (fun c => c.width + c.separation)).sum) ∧
    ((∀ c ∈ d.columns, c.width = w ∧ c.separation = s) →
      (computeColumnPositions d)[i]? = some (i * (w + s))) := by
  have hlen : (computeColumnPositions d).length = d.columns.length :=
    columnPositionsLoop_length 0 d.columns
  have hget : (computeColumnPositions d)[i]? =
      some (((d.columns.take i).map (fun c => c.width + c.separation)).sum) := by
    have h := columnPositionsLoop_getElem d.columns 0 i hi
    rw [zero_add] at h
    exact h
  refine ⟨hlen, hget, ?_⟩
  intro huni
  have hrep : (d.columns.take i).map (fun c => c.width + c.separation) =
      List.replicate i (w + s) := by
    rw [List.eq_replicate_iff]
    constructor
    · rw [List.length_map, List.length_take]
      omega
    · intro b hb
      rcases List.mem_map.mp hb with ⟨c, hc, rfl⟩
      have hcm : c ∈ d.columns := List.take_subset i d.columns hc
      rw [(huni c hcm).1, (huni c hcm).2]
  rw [hget, hrep, List.sum_replicate, nsmul_eq_mul]

/-- Two columns of widths 0.5 and 0.2, the first with separation 1.0, as in
the spec's scenario. -/
def scenarioDiagram : Diagram :=
  { emptyDiagram with
    columns := [⟨[], 1/2, 1, none⟩, ⟨[], 1/5, 1/2, none⟩] }

/-- Three columns with uniform width 0.5 and separation 1.0. -/
def uniformDiagram : Diagram :=
  { emptyDiagram with
    columns := [⟨[], 1/2, 1, none⟩, ⟨[], 1/2, 1, none⟩, ⟨[], 1/2, 1, none⟩] }

/-- Witness for C2: in the scenario diagram the second column's left x is
1.5, and in the uniform diagram column 2 starts at `2 * (0.5 + 1)`. -/
theorem C2_column_positions_accumulate_witness :
    (computeColumnPositions scenarioDiagram)[1]? = some (3/2) ∧
    (computeColumnPositions uniformDiagram)[2]? = some (2 * (1/2 + 1)) := by
  constructor
  · have h := (C2_column_positions_accumulate scenarioDiagram 0 0 1
      (by simp [scenarioDiagram])).2.1
    rw [h]
    norm_num [scenarioDiagram]
  · refine (C2_column_positions_accumulate uniformDiagram (1/2) 1 2
      (by simp [uniformDiagram])).2.2 ?_
    intro c hc
    simp only [uniformDiagram, List.mem_cons, List.not_mem_nil, or_false] at hc
    rcases hc with rfl | rfl | rfl <;> exact ⟨rfl, rfl⟩

theorem addLevels_width (es : List ℚ) (c : Column) (fresh : Nat) :
    (addLevels c fresh es).width = c.width := by
  induction es generalizing c fresh with
  | nil => rfl
  | cons e es ih => rw [addLevels, ih]

theorem addLevels_separation (es : List ℚ) (c : Column) (fresh : Nat) :
    (addLevels c fresh es).separation = c.separation := by
  induction es generalizing c fresh with
  | nil => rfl
  | cons e es ih => rw [addLevels, ih]

/-- Counterexample for C6: `add_column` with a supplied separation of 0.0
stores 1.0, not 0.0 — Python's `separation or 1.0` treats the falsy value
`0.0` like an omitted argument, contradicting the claim that every
supplied non-negative separation is stored. -/
theorem C6_separation_zero_counterexample :
    (addColumn emptyDiagram none none (some 0) none 0).2.separation = 1 ∧
    (addColumn emptyDiagram none none (some 0) none 0).2.separation ≠ 0 := by
  constructor <;> simp [addColumn, pyFloatOr]

/-- C6 (amended): `add_column` stores a supplied nonzero separation
unchanged; a supplied separation of 0.0 is treated exactly like an omitted
one and the default 1.0 is stored instead. -/
theorem C6_separation_nonzero_stored (d : Diagram) (levels : Option (List ℚ))
    (w : Option ℚ) (lbl : Option String) (fresh : Nat) (s : ℚ) (hs : s ≠ 0) :
    (addColumn d levels w (some s) lbl fresh).2.separation = s ∧
    (addColumn d levels w (some ((0 : ℚ))) lbl fresh).2.separation =
      (addColumn d levels w none lbl fresh).2.separation := by
  constructor
  · cases levels <;> simp [addColumn, pyFloatOr, hs, addLevels_separation]
  · cases levels <;> simp [addColumn, pyFloatOr, addLevels_separation]

/-- Witness for C6 (amended) at separation 2: the created column stores
separation 2. -/
theorem C6_separation_nonzero_stored_witness :
    (addColumn emptyDiagram none none (some 2) none 0).2.separation = 2 :=
  (C6_separation_nonzero_stored emptyDiagram none none none 0 2 (by norm_num)).1

/-- C10: `add_column(width=0.0)` produces a column of width 0.5 — the
defaulting expression `width or 0.5` treats a supplied 0.0 exactly like an
omitted width, so a zero width is never stored. -/
theorem C10_width_zero_defaults (d : Diagram) (levels : Option (List ℚ))
    (sep : Option ℚ) (lbl : Option String) (fresh : Nat) :
    (addColumn d levels (some 0) sep lbl fresh).2.width = 1/2 ∧
    (addColumn d levels (some 0) sep lbl fresh).2.width =
      (addColumn d levels none sep lbl fresh).2.width := by
  constructor <;> cases levels <;> simp [addColumn, pyFloatOr, addLevels_width]

/-- C8: each of the five registration methods appends exactly one record
at the end of its own annotation list and leaves the columns (hence their
levels) and the other four annotation lists unchanged. -/
theorem C8_registration_frame (d : Diagram) (a b : Level) (x : ℚ)
    (lbl : Option String) (color : String) (p : ℚ) :
    ((connect d a b).connections = d.connections ++ [(a, b)] ∧
      (connect d a b).columns = d.columns ∧
      (connect d a b).arrows = d.arrows ∧
      (connect d a b).brokenArrows = d.brokenArrows ∧
      (connect d a b).transitions = d.transitions ∧
      (connect d a b).emissions = d.emissions) ∧
    ((addVerticalArrow d a b x lbl color).arrows =
        d.arrows ++ [(a, b, x, lbl, color)] ∧
      (addVerticalArrow d a b x lbl color).columns = d.columns ∧
      (addVerticalArrow d a b x lbl color).connections = d.connections ∧
      (addVerticalArrow d a b x lbl color).brokenArrows = d.brokenArrows ∧
      (addVerticalArrow d a b x lbl color).transitions = d.transitions ∧
      (addVerticalArrow d a b x lbl color).emissions = d.emissions) ∧
    ((addVerticalBrokenArrow d a b x lbl p color).brokenArrows =
        d.brokenArrows ++ [(a, b, x, lbl, p, color)] ∧
      (addVerticalBrokenArrow d a b x lbl p color).columns = d.columns ∧
      (addVerticalBrokenArrow d a b x lbl p color).connections = d.connections ∧
      (addVerticalBrokenArrow d a b x lbl p color).arrows = d.arrows ∧
      (addVerticalBrokenArrow d a b x lbl p color).transitions = d.transitions ∧
      (addVerticalBrokenArrow d a b x lbl p color).emissions = d.emissions) ∧
    ((addTransition d a b x lbl color).transitions =
        d.transitions ++ [(a, b, x, lbl, color)] ∧
      (addTransition d a b x lbl color).columns = d.columns ∧
      (addTransition d a b x lbl color).connections = d.connections ∧
      (addTransition d a b x lbl color).arrows = d.arrows ∧
      (addTransition d a b x lbl color).brokenArrows = d.brokenArrows ∧
      (addTransition d a b x lbl color).emissions = d.emissions) ∧
    ((addSpontaneousEmission d a b x lbl color).emissions =
        d.emissions ++ [(a, b, x, lbl, color)] ∧
      (addSpontaneousEmission d a b x lbl color).columns = d.columns ∧
      (addSpontaneousEmission d a b x lbl color).connections = d.connections ∧
      (addSpontaneousEmission d a b x lbl color).arrows = d.arrows ∧
      (addSpontaneousEmission d a b x lbl color).brokenArrows = d.brokenArrows ∧
      (addSpontaneousEmission d a b x lbl color).transitions = d.transitions) :=
  ⟨⟨rfl, rfl, rfl, rfl, rfl, rfl⟩, ⟨rfl, rfl, rfl, rfl, rfl, rfl⟩,
   ⟨rfl, rfl, rfl, rfl, rfl, rfl⟩, ⟨rfl, rfl, rfl, rfl, rfl, rfl⟩,
   ⟨rfl, rfl, rfl, rfl, rfl, rfl⟩⟩

theorem dictFind_eq_none {m : List (Nat × Coord)} {k : Nat}
    (h : ∀ p ∈ m, p.1 ≠ k) : dictFind m k = none := by
  induction m with
  | nil => rfl
  | cons p rest ih =>
      obtain ⟨k0, v⟩ := p
      have hrest : dictFind rest k = none :=
        ih (fun q hq => h q (List.mem_cons_of_mem _ hq))
      have hk0 : k0 ≠ k := h (k0, v) (List.mem_cons_self _ _)
      rw [dictFind, hrest]
      exact if_neg hk0

theorem levelCoords_keys {d : Diagram} {k : Nat} {v : Coord}
    (h : (k, v) ∈ levelCoords d) :
    ∃ col ∈ d.columns, ∃ lvl ∈ col.levels, lvl.id = k := by
  unfold levelCoords at h
  rcases List.mem_flatMap.mp h with ⟨p, hp, hin⟩
  rcases List.mem_map.mp hin with ⟨q, hq, heq⟩
  have hcol : p.1 ∈ d.columns := (List.of_mem_zip hp).1
  have hlvl : q.1 ∈ p.1.levels := (List.of_mem_zip hq).1
  have hk : q.1.id = k := congrArg Prod.fst heq
  exact ⟨p.1, hcol, q.1, hlvl, hk⟩

theorem dictFind_levelCoords_eq_none {d : Diagram} {a : Level}
    (h : ∀ col ∈ d.columns, ∀ lvl ∈ col.levels, lvl.id ≠ a.id) :
    dictFind (levelCoords d) a.id = none := by
  apply dictFind_eq_none
  intro p hp hpk
  obtain ⟨k, v⟩ := p
  rcases levelCoords_keys hp with ⟨col, hcol, lvl, hlvl, hid⟩
  exact h col hcol lvl hlvl (by rw [hid]; exact hpk)

/-- C3: an annotation of any of the five kinds that references a level `a`
belonging to no column of the diagram resolves to no drawing instruction
at all, whichever side `a` stands on, and dropping such an annotation from
its list leaves the instructions of the remaining annotations untouched.
In the embedding `plot` is a total function whose annotation phases are
exactly the concatenation of these resolver outputs, so the method
completes without raising and simply skips the annotation. -/
theorem C3_missing_level_skipped (d : Diagram) (a b : Level) (x p : ℚ)
    (lbl : Option String) (color : String)
    (h : ∀ col ∈ d.columns, ∀ lvl ∈ col.levels, lvl.id ≠ a.id) :
    (resolveConnection (levelCoords d) (a, b) = [] ∧
      resolveConnection (levelCoords d) (b, a) = [] ∧
      ∀ rest : List (Level × Level),
        ((a, b) :: rest).flatMap (resolveConnection (levelCoords d)) =
          rest.flatMap (resolveConnection (levelCoords d))) ∧
    (resolveArrow (levelCoords d) (a, b, x, lbl, color) = [] ∧
      resolveArrow (levelCoords d) (b, a, x, lbl, color) = [] ∧
      ∀ rest : List (Level × Level × ℚ × Option String × String),
        ((a, b, x, lbl, color) :: rest).flatMap (resolveArrow (levelCoords d)) =
          rest.flatMap (resolveArrow (levelCoords d))) ∧
    (resolveBrokenArrow (levelCoords d) (a, b, x, lbl, p, color) = [] ∧
      resolveBrokenArrow (levelCoords d) (b, a, x, lbl, p, color) = [] ∧
      ∀ rest : List (Level × Level × ℚ × Option String × ℚ × String),
        ((a, b, x, lbl, p, color) :: rest).flatMap
            (resolveBrokenArrow (levelCoords d)) =
          rest.flatMap (resolveBrokenArrow (levelCoords d))) ∧
    (resolveTransition (levelCoords d) (a, b, x, lbl, color) = [] ∧
      resolveTransition (levelCoords d) (b, a, x, lbl, color) = [] ∧
      ∀ rest : List (Level × Level × ℚ × Option String × String),
        ((a, b, x, lbl, color) :: rest).flatMap
            (resolveTransition (levelCoords d)) =
          rest.flatMap (resolveTransition (levelCoords d))) ∧
    (resolveEmission (levelCoords d) (a, b, x, lbl, color) = [] ∧
      resolveEmission (levelCoords d) (b, a, x, lbl, color) = [] ∧
      ∀ rest : List (Level × Level × ℚ × Option String × String),
        ((a, b, x, lbl, color) :: rest).flatMap
            (resolveEmission (levelCoords d)) =
          rest.flatMap (resolveEmission (levelCoords d))) := by
  have hn : dictFind (levelCoords d) a.id = none :=
    dictFind_levelCoords_eq_none h
  refine ⟨⟨?_, ?_, ?_⟩, ⟨?_, ?_, ?_⟩, ⟨?_, ?_, ?_⟩, ⟨?_, ?_, ?_⟩, ⟨?_, ?_, ?_⟩⟩
  case _ => simp only [resolveConnection, hn]
  case _ =>
      simp only [resolveConnection, hn]
      cases dictFind (levelCoords d) b.id <;> rfl
  case _ =>
      intro rest
      rw [List.flatMap_cons]
      simp only [resolveConnection, hn, List.nil_append]
  case _ => simp only [resolveArrow, hn]
  case _ =>
      simp only [resolveArrow, hn]
      cases dictFind (levelCoords d) b.id <;> rfl
  case _ =>
      intro rest
      rw [List.flatMap_cons]
      simp only [resolveArrow, hn, List.nil_append]
  case _ => simp only [resolveBrokenArrow, hn]
  case _ =>
      simp only [resolveBrokenArrow, hn]
      cases dictFind (levelCoords d) b.id <;> rfl
  case _ =>
      intro rest
      rw [List.flatMap_cons]
      simp only [resolveBrokenArrow, hn, List.nil_append]
  case _ => simp only [resolveTransition, hn]
  case _ =>
      simp only [resolveTransition, hn]
      cases dictFind (levelCoords d) b.id <;> rfl
  case _ =>
      intro rest
      rw [List.flatMap_cons]
      simp only [resolveTransition, hn, List.nil_append]
  case _ => simp only [resolveEmission, hn]
  case _ =>
      simp only [resolveEmission, hn]
      cases dictFind (levelCoords d) b.id <;> rfl
  case _ =>
      intro rest
      rw [List.flatMap_cons]
      simp only [resolveEmission, hn, List.nil_append]

/-- Two columns, each with two laid-out levels (identities 0 to 3). -/
def twoColumnDiagram : Diagram :=
  { emptyDiagram with
    columns := [⟨[⟨0, 0, none⟩, ⟨1, 1, none⟩], 1/2, 1, none⟩,
                ⟨[⟨2, 0, none⟩, ⟨3, 1, none⟩], 1/2, 1, none⟩] }

/-- Witness for C3: a level with identity 7 belongs to no column of
`twoColumnDiagram`, so a connection and a vertical arrow referencing it
resolve to no instructions. -/
theorem C3_missing_level_skipped_witness :
    resolveConnection (levelCoords twoColumnDiagram)
      (⟨7, 0, none⟩, ⟨0, 0, none⟩) = [] ∧
    resolveArrow (levelCoords twoColumnDiagram)
      (⟨7, 0, none⟩, ⟨0, 0, none⟩, 0, none, "black") = [] := by
  have h := C3_missing_level_skipped twoColumnDiagram ⟨7, 0, none⟩ ⟨0, 0, none⟩
    0 (1/2) none "black" (by decide)
  exact ⟨h.1.1, h.2.1.1⟩

/-- C5: a broken vertical arrow whose two levels resolve to heights `y0`
and `y1` emits exactly one gap-erasure glyph, running from
`break_y - gap` to `break_y + gap` at the arrow's x position, where
`break_y = y0 + (y1 - y0) * break_position` and `gap = (y1 - y0) * 0.05`,
and emits the tilde break marker centered at `break_y`. -/
theorem C5_broken_arrow_geometry (m : List (Nat × Coord)) (a b : Level)
    (x p : ℚ) (lbl : Option String) (color : String) (ca cb : Coord)
    (ha : dictFind m a.id = some ca) (hb : dictFind m b.id = some cb) :
    (resolveBrokenArrow m (a, b, x, lbl, p, color)).filter
        (fun i => match i with | Instr.gapGlyph _ _ _ => true | _ => false) =
      [Instr.gapGlyph x
        ((ca.y + (cb.y - ca.y) * p) - (cb.y - ca.y) * (1/20))
        ((ca.y + (cb.y - ca.y) * p) + (cb.y - ca.y) * (1/20))] ∧
    Instr.text (x + 1/50) (ca.y + (cb.y - ca.y) * p) "~~" ∈
      resolveBrokenArrow m (a, b, x, lbl, p, color) := by
  cases hl : strTruthy lbl <;>
    simp [resolveBrokenArrow, ha, hb, hl, List.filter]

/-- Witness for C5 at `y0 = 0`, `y1 = 1`, `break_position = 0.6`: the gap
glyph runs from 0.55 to 0.65 (centered at 0.6 with half-height 0.05) and
the break marker sits at height 0.6. -/
theorem C5_broken_arrow_geometry_witness :
    (resolveBrokenArrow [(0, ⟨0, 1, 0⟩), (1, ⟨0, 1, 1⟩)]
        (⟨0, 0, none⟩, ⟨1, 1, none⟩, 2, none, 3/5, "black")).filter
        (fun i => match i with | Instr.gapGlyph _ _ _ => true | _ => false) =
      [Instr.gapGlyph 2 (11/20) (13/20)] ∧
    Instr.text (2 + 1/50) (3/5) "~~" ∈
      resolveBrokenArrow [(0, ⟨0, 1, 0⟩), (1, ⟨0, 1, 1⟩)]
        (⟨0, 0, none⟩, ⟨1, 1, none⟩, 2, none, 3/5, "black") := by
  have h := C5_broken_arrow_geometry [(0, ⟨0, 1, 0⟩), (1, ⟨0, 1, 1⟩)]
    ⟨0, 0, none⟩ ⟨1, 1, none⟩ 2 (3/5) none "black" ⟨0, 1, 0⟩ ⟨0, 1, 1⟩
    (by decide) (by decide)
  constructor
  · rw [h.1]
    norm_num
  · have h2 := h.2
    have : (0 : ℚ) + (1 - 0) * (3/5) = 3/5 := by norm_num
    rw [this] at h2
    exact h2

theorem regulateLevels_length (d : Diagram) (es : List ℚ) :
    (regulateLevels d es).length = es.length := by
  by_cases he : es = []
  · subst he; simp [regulateLevels]
  · by_cases ha : d.auto_regulation = false
    · simp [regulateLevels, he, ha]
    · simp [regulateLevels, he, ha]

theorem computeColumnPositions_length (d : Diagram) :
    (computeColumnPositions d).length = d.columns.length :=
  columnPositionsLoop_length 0 d.columns

theorem dictFind_isSome_of_key {m : List (Nat × Coord)} {k : Nat}
    (h : ∃ p ∈ m, p.1 = k) : (dictFind m k).isSome = true := by
  induction m with
  | nil =>
      rcases h with ⟨p, hp, _⟩
      exact absurd hp (List.not_mem_nil p)
  | cons q rest ih =>
      obtain ⟨k0, v⟩ := q
      rcases h with ⟨p, hp, hpk⟩
      rcases List.mem_cons.mp hp with rfl | hp'
      · have hk : k0 = k := hpk
        cases hf : dictFind rest k with
        | some v1 => simp [dictFind, hf]
        | none => simp [dictFind, hf, hk]
      · have hsome := ih ⟨p, hp', hpk⟩
        cases hf : dictFind rest k with
        | some v1 => simp [dictFind, hf]
        | none => rw [hf] at hsome; exact absurd hsome (by simp)

theorem levelCoords_hasKey {d : Diagram} {col : Column} {lvl : Level}
    (hcol : col ∈ d.columns) (hlvl : lvl ∈ col.levels) :
    ∃ p ∈ levelCoords d, p.1 = lvl.id := by
  obtain ⟨i, hi, hceq⟩ := List.getElem_of_mem hcol
  obtain ⟨j, hj, hleq⟩ := List.getElem_of_mem hlvl
  have hplen : i < (computeColumnPositions d).length := by
    rw [computeColumnPositions_length]; exact hi
  have hzlen : i < (d.columns.zip (computeColumnPositions d)).length := by
    rw [List.length_zip]; omega
  have hzip : (col, (computeColumnPositions d)[i]) ∈
      d.columns.zip (computeColumnPositions d) := by
    have hz : (d.columns.zip (computeColumnPositions d))[i] =
        (d.columns[i], (computeColumnPositions d)[i]) := List.getElem_zip
    have hm := List.getElem_mem hzlen
    rw [hz, hceq] at hm
    exact hm
  have hyslen : j < (regulateLevels d (col.levels.map Level.energy)).length := by
    rw [regulateLevels_length, List.length_map]; exact hj
  have hz2len : j <
      (col.levels.zip (regulateLevels d (col.levels.map Level.energy))).length := by
    rw [List.length_zip]; omega
  have hzip2 : (lvl, (regulateLevels d (col.levels.map Level.energy))[j]) ∈
      col.levels.zip (regulateLevels d (col.levels.map Level.energy)) := by
    have hz : (col.levels.zip (regulateLevels d (col.levels.map Level.energy)))[j] =
        (col.levels[j], (regulateLevels d (col.levels.map Level.energy))[j]) :=
      List.getElem_zip
    have hm := List.getElem_mem hz2len
    rw [hz, hleq] at hm
    exact hm
  refine ⟨(lvl.id, ⟨(computeColumnPositions d)[i],
    (computeColumnPositions d)[i] + col.width,
    (regulateLevels d (col.levels.map Level.energy))[j]⟩), ?_, rfl⟩
  unfold levelCoords
  exact List.mem_flatMap.mpr
    ⟨(col, (computeColumnPositions d)[i]), hzip,
      List.mem_map.mpr ⟨(lvl, (regulateLevels d (col.levels.map Level.energy))[j]),
        hzip2, rfl⟩⟩

/-- C4: the default auto-connect block synthesizes dashed connections
between every level of column `i - 1` and every level of column `i`, for
every consecutive pair, exactly when the `connect` flag is set, no
explicit connection was registered, and there are at least two columns; if
the flag is off, or any explicit connection exists, or there are fewer
than two columns, it synthesizes nothing. -/
theorem C4_default_connect_iff (d : Diagram) (conn : Bool) :
    ((conn = false ∨ d.columns.length ≤ 1 ∨ d.connections ≠ []) →
      defaultConnections d conn (levelCoords d) = []) ∧
    (conn = true → d.connections = [] → 1 < d.columns.length →
      ∀ i : Nat, 1 ≤ i → i < d.columns.length →
        ∀ l ∈ (d.columns[i - 1]!).levels, ∀ r ∈ (d.columns[i]!).levels,
          ∃ cl cr : Coord,
            dictFind (levelCoords d) l.id = some cl ∧
            dictFind (levelCoords d) r.id = some cr ∧
            Instr.connSeg cl.x1 cr.x0 cl.y cr.y ∈
              defaultConnections d conn (levelCoords d)) := by
  constructor
  · intro h
    unfold defaultConnections
    rw [if_neg]
    rintro ⟨hc, hlen, hconn⟩
    rcases h with h | h | h
    · rw [h] at hc; cases hc
    · omega
    · exact h hconn
  · intro hc hconn hlen i hi1 hi l hl r hr
    have hil : i - 1 < d.columns.length := by omega
    have hgl : d.columns[i - 1]! = d.columns[i - 1] := getElem!_pos d.columns (i - 1) hil
    have hgr : d.columns[i]! = d.columns[i] := getElem!_pos d.columns i hi
    rw [hgl] at hl
    rw [hgr] at hr
    have hkeyl : ∃ p ∈ levelCoords d, p.1 = l.id :=
      levelCoords_hasKey (List.getElem_mem hil) hl
    have hkeyr : ∃ p ∈ levelCoords d, p.1 = r.id :=
      levelCoords_hasKey (List.getElem_mem hi) hr
    obtain ⟨cl, hcl⟩ := Option.isSome_iff_exists.mp (dictFind_isSome_of_key hkeyl)
    obtain ⟨cr, hcr⟩ := Option.isSome_iff_exists.mp (dictFind_isSome_of_key hkeyr)
    refine ⟨cl, cr, hcl, hcr, ?_⟩
    unfold defaultConnections
    rw [if_pos ⟨by rw [hc], hlen, hconn⟩]
    refine List.mem_flatMap.mpr ⟨i, ?_, ?_⟩
    · rw [List.mem_range'_1]
      omega
    · refine List.mem_flatMap.mpr ⟨l, by rw [hgl]; exact hl, ?_⟩
      refine List.mem_flatMap.mpr ⟨r, by rw [hgr]; exact hr, ?_⟩
      rw [hcl, hcr]
      exact List.mem_singleton.mpr rfl

/-- Witness for C4 on `twoColumnDiagram` with the flag set and no explicit
connections: the dashed segment between the first level of column 0
(right edge 0.5, height 0) and the first level of column 1 (left edge 1.5,
height 0) is synthesized. -/
theorem C4_default_connect_iff_witness :
    Instr.connSeg (1/2) (3/2) 0 0 ∈
      defaultConnections twoColumnDiagram true (levelCoords twoColumnDiagram) := by
  obtain ⟨cl, cr, hcl, hcr, hmem⟩ :=
    (C4_default_connect_iff twoColumnDiagram true).2 rfl rfl (by decide) 1
      (by decide) (by decide) ⟨0, 0, none⟩ (by decide) ⟨2, 0, none⟩ (by decide)
  have e1 : dictFind (levelCoords twoColumnDiagram) 0 = some ⟨0, 1/2, 0⟩ := by
    norm_num [twoColumnDiagram, emptyDiagram, levelCoords, computeColumnPositions,
      computeColumnPositionsS, columnPositionsLoop, regulateLevels, minE, maxE,
      dictFind]
  have e2 : dictFind (levelCoords twoColumnDiagram) 2 = some ⟨3/2, 2, 0⟩ := by
    norm_num [twoColumnDiagram, emptyDiagram, levelCoords, computeColumnPositions,
      computeColumnPositionsS, columnPositionsLoop, regulateLevels, minE, maxE,
      dictFind]
  have hcl' : cl = ⟨0, 1/2, 0⟩ := Option.some.inj (hcl.symm.trans e1)
  have hcr' : cr = ⟨3/2, 2, 0⟩ := Option.some.inj (hcr.symm.trans e2)
  rw [hcl', hcr'] at hmem
  exact hmem

end EnergyLevelDiagram
